import Mathlib

/-!
Shallow embedding of the market-research notebook
(`src/notebooks/market_research.ipynb`).

The notebook defines a static instrument universe, a routine
`analyze_market_correlations` that fetches closing prices per ticker
(skipping tickers whose fetch raises), assembles them into a DataFrame,
computes `df.pct_change().corr()`, plots a heatmap and returns the matrix,
and a driver that runs the routine on the first ten tickers of the
flattened universe.

Modelling choices, faithful to the source:
  * Closing prices are exact rationals; pandas float arithmetic is modelled
    by exact arithmetic, and a NaN entry of the correlation matrix is
    modelled as `none : Option ℝ`.
  * The external fetch (`yf.Ticker(t).history(period)['Close']`) is an
    oracle `fetch : String → Option (List ℚ)`: `none` models a fetch that
    raises (any exception — the code catches them all with a bare
    `except:`), `some s` a successful series.  Successful series are taken
    to share the common trading-date index, so the DataFrame join aligns
    them positionally.
  * `df.pct_change()` leaves NaN in the first row of each column; the
    pairwise-complete-observation handling of `DataFrame.corr` then drops
    that row for every pair, so returns are modelled as the list of rows
    1..n-1 directly.
  * `DataFrame.corr` computes, for each pair of columns, the Pearson
    coefficient cov/(std·std); when a column's deviation sum of squares is
    zero the denominator is zero and pandas produces NaN (`none` here),
    including on the diagonal.
  * The notebook imports `matplotlib.pyplot as plt` but never imports
    seaborn, yet calls `sns.heatmap(...)`; that call raises
    `NameError: name 'sns' is not defined` after the matrix is computed
    and before the `return` statement.  The routine is therefore modelled
    as returning its printed output together with an `Except` value that
    is always this `NameError`.
-/

namespace MarketResearch

/-- Day-over-day percentage returns of a price series:
`df.pct_change()` restricted to the rows that survive `corr`'s
pairwise-complete handling (the NaN first row is dropped), so row `i` of
the result is `(xs[i+1] - xs[i]) / xs[i]`. -/
def pct_change (xs : List ℚ) : List ℚ :=
  (xs.zip xs.tail).map (fun p => (p.2 - p.1) / p.1)

/-- Arithmetic mean of a series (0 for the empty series, matching the
convention that the correlation of an empty overlap is NaN anyway). -/
def mean (xs : List ℚ) : ℚ := xs.sum / xs.length

/-- Deviations of a series from its mean. -/
def devs (xs : List ℚ) : List ℚ := xs.map (fun x => x - mean xs)

/-- Sum of products of paired deviations: the un-normalised covariance.
pandas normalises covariance and both standard deviations by the same
factor, which cancels in the correlation coefficient, so the model works
with the raw sums. -/
def covSum (xs ys : List ℚ) : ℚ :=
  (((devs xs).zip (devs ys)).map (fun p => p.1 * p.2)).sum

/-- Sum of squared deviations: the un-normalised variance. -/
def varSum (xs : List ℚ) : ℚ := covSum xs xs

/-- Pearson correlation coefficient of two series as computed by
`DataFrame.corr`: cov/(std·std), NaN (`none`) when either variance is
zero (constant column, or fewer than two paired observations). -/
noncomputable def corrCoef (xs ys : List ℚ) : Option ℝ :=
  if varSum xs = 0 ∨ varSum ys = 0 then none
  else some ((covSum xs ys : ℝ) /
    (Real.sqrt ((varSum xs : ℚ) : ℝ) * Real.sqrt ((varSum ys : ℚ) : ℝ)))

/-- Python-dict insertion, as used by `data[ticker] = ...`: an existing
key keeps its position and gets the new value; a new key is appended. -/
def dictInsert (d : List (String × List ℚ)) (k : String) (v : List ℚ) :
    List (String × List ℚ) :=
  if d.any (fun p => p.1 == k) then
    d.map (fun p => if p.1 = k then (k, v) else p)
  else d ++ [(k, v)]

/-- The fetch loop of `analyze_market_correlations`: for each ticker in
order, attempt the fetch; on success store the series under the ticker,
on failure (the bare `except:`) skip it. -/
def buildData (fetch : String → Option (List ℚ)) (tickers : List String) :
    List (String × List ℚ) :=
  tickers.foldl (fun d t =>
    match fetch t with
    | some s => dictInsert d t s
    | none => d) []

/-- Console output of the fetch loop: one diagnostic line per failed
ticker, in input order. -/
def fetchFailures (fetch : String → Option (List ℚ)) (tickers : List String) :
    List String :=
  tickers.filterMap (fun t =>
    match fetch t with
    | some _ => none
    | none => some ("Failed to get data for " ++ t))

/-- A labelled correlation table as returned by `DataFrame.corr`: row
labels, column labels, and a rectangular grid of entries (NaN as
`none`). -/
@[ext] structure CorrTable where
  rows : List String
  cols : List String
  entries : List (List (Option ℝ))

/-- Entry `(i, j)` of a correlation table, `none` out of bounds. -/
def CorrTable.entry (M : CorrTable) (i j : ℕ) : Option ℝ :=
  (M.entries.getD i []).getD j none

/-- Model of `DataFrame.corr` on an ordered column assignment: the labels
in both dimensions are the column labels in order, and entry `(i, j)` is
the pairwise Pearson coefficient of columns `i` and `j`. -/
noncomputable def dfCorr (df : List (String × List ℚ)) : CorrTable :=
  { rows := df.map (fun p => p.1)
    cols := df.map (fun p => p.1)
    entries := df.map (fun ci => df.map (fun cj => corrCoef ci.2 cj.2)) }

/-- The value bound to `correlation_matrix` in the routine:
`pd.DataFrame(data).pct_change().corr()`. -/
noncomputable def correlation_matrix (fetch : String → Option (List ℚ))
    (tickers : List String) : CorrTable :=
  dfCorr ((buildData fetch tickers).map (fun p => (p.1, pct_change p.2)))

/-- Python runtime errors relevant to this cell. -/
inductive PyError where
  | nameError (missing : String)

/-- The routine `analyze_market_correlations`: fetch loop (printing a
diagnostic per failed ticker), correlation computation, then the plotting
block.  `plt.figure` succeeds, but `sns.heatmap` raises
`NameError: name 'sns' is not defined` because seaborn is never imported,
so the `return correlation_matrix` statement is unreachable: the result
is the console output paired with the escaping exception. -/
noncomputable def analyze_market_correlations
    (fetch : String → Option (List ℚ)) (tickers : List String) :
    List String × Except PyError CorrTable :=
  let _correlationMatrix := correlation_matrix fetch tickers
  (fetchFailures fetch tickers, Except.error (PyError.nameError ("sns")))

/-- The static instrument universe `research_universe`, in the notebook's
insertion order. -/
def research_universe : List (String × List String) :=
  [("indices", ["SPY", "QQQ", "IWM", "DIA"]),
   ("sectors", ["XLF", "XLK", "XLE", "XLV", "XLI"]),
   ("commodities", ["GLD", "SLV", "USO", "UNG"]),
   ("bonds", ["TLT", "IEF", "SHY", "HYG"]),
   ("volatility", ["VIX", "UVXY", "SVXY"])]

/-- The driver's flattening loop: `all_tickers.extend(category)` over
`research_universe.values()` in insertion order. -/
def all_tickers : List String :=
  research_universe.foldl (fun acc cat => acc ++ cat.2) []

/-- The top-level driver: builds `all_tickers`, then calls
`analyze_market_correlations(all_tickers[:10])`.  Its result pairs the
(unmodified) instrument universe with the routine's outcome, so that
frame conditions on the universe can be stated. -/
noncomputable def runDriver (fetch : String → Option (List ℚ)) :
    List (String × List String) × (List String × Except PyError CorrTable) :=
  (research_universe, analyze_market_correlations fetch (all_tickers.take 10))

/-! ### List-level arithmetic lemmas -/

lemma sum_sq_nonneg (l : List ℚ) : 0 ≤ (l.map (fun x => x * x)).sum := by
  apply List.sum_nonneg
  intro a ha
  rcases List.mem_map.mp ha with ⟨x, _, rfl⟩
  exact mul_self_nonneg x

lemma zip_self_map (l : List ℚ) :
    (l.zip l).map (fun p => p.1 * p.2) = l.map (fun x => x * x) := by
  induction l with
  | nil => rfl
  | cons a l ih => simpa [List.zip_cons_cons] using ih

lemma varSum_eq (xs : List ℚ) :
    varSum xs = ((devs xs).map (fun x => x * x)).sum := by
  unfold varSum covSum
  rw [zip_self_map]

lemma varSum_nonneg (xs : List ℚ) : 0 ≤ varSum xs := by
  rw [varSum_eq]
  exact sum_sq_nonneg (devs xs)

lemma zip_cauchy_schwarz : ∀ xs ys : List ℚ,
    (((xs.zip ys).map (fun p => p.1 * p.2)).sum) ^ 2 ≤
      ((xs.map (fun x => x * x)).sum) * ((ys.map (fun y => y * y)).sum)
  | [], ys => by simp
  | x :: xs, [] => by simp
  | x :: xs, y :: ys => by
    have ih := zip_cauchy_schwarz xs ys
    have hA := sum_sq_nonneg xs
    have hB := sum_sq_nonneg ys
    simp only [List.zip_cons_cons, List.map_cons, List.sum_cons]
    set S := ((xs.zip ys).map (fun p => p.1 * p.2)).sum with hS
    set A := (xs.map (fun x => x * x)).sum with hA2
    set B := (ys.map (fun y => y * y)).sum with hB2
    rcases eq_or_lt_of_le hA with hA0 | hApos
    · have hSsq : S ^ 2 = 0 :=
        le_antisymm (by rw [← hA0] at ih; simpa using ih) (sq_nonneg S)
      have hS0 : S = 0 := pow_eq_zero_iff (n := 2) (by norm_num) |>.mp hSsq
      rw [hS0, ← hA0]
      nlinarith [mul_nonneg (mul_self_nonneg x) hB]
    · nlinarith [sq_nonneg (x * S - A * y),
        mul_nonneg (add_nonneg (mul_self_nonneg x) hA) (sub_nonneg.mpr ih)]

lemma covSum_sq_le (xs ys : List ℚ) :
    covSum xs ys ^ 2 ≤ varSum xs * varSum ys := by
  rw [varSum_eq, varSum_eq]
  exact zip_cauchy_schwarz (devs xs) (devs ys)

lemma zip_comm_map (xs ys : List ℚ) :
    (xs.zip ys).map (fun p => p.1 * p.2) = (ys.zip xs).map (fun p => p.1 * p.2) := by
  induction xs generalizing ys with
  | nil => cases ys <;> rfl
  | cons x xs ih =>
    cases ys with
    | nil => rfl
    | cons y ys => simp [List.zip_cons_cons, ih, mul_comm]

lemma covSum_comm (xs ys : List ℚ) : covSum xs ys = covSum ys xs := by
  unfold covSum
  rw [zip_comm_map]

lemma mean_map_mul (l : List ℚ) (c : ℚ) :
    mean (l.map (fun x => c * x)) = c * mean l := by
  unfold mean
  rw [List.sum_map_mul_left, List.length_map, mul_div_assoc]
  simp

lemma devs_map_mul (l : List ℚ) (c : ℚ) :
    devs (l.map (fun x => c * x)) = (devs l).map (fun x => c * x) := by
  unfold devs
  rw [mean_map_mul, List.map_map, List.map_map]
  congr 1
  funext x
  simp only [Function.comp_apply]
  ring

lemma zip_map_mul_right (l : List ℚ) (c : ℚ) :
    ((l.zip (l.map (fun x => c * x))).map (fun p => p.1 * p.2)) =
      l.map (fun x => c * (x * x)) := by
  induction l with
  | nil => rfl
  | cons a l ih =>
    simp only [List.map_cons, List.zip_cons_cons, List.cons.injEq]
    exact ⟨by ring, ih⟩

lemma covSum_map_mul (xs : List ℚ) (c : ℚ) :
    covSum xs (xs.map (fun x => c * x)) = c * varSum xs := by
  unfold covSum
  rw [devs_map_mul, zip_map_mul_right, List.sum_map_mul_left, varSum_eq]

lemma varSum_map_mul (xs : List ℚ) (c : ℚ) :
    varSum (xs.map (fun x => c * x)) = c ^ 2 * varSum xs := by
  rw [varSum_eq, devs_map_mul, List.map_map]
  have : ((fun x => x * x) ∘ fun x => c * x) = fun x => c ^ 2 * (x * x) := by
    funext x
    simp only [Function.comp_apply]
    ring
  rw [this, List.sum_map_mul_left, varSum_eq]

/-! ### Pearson-coefficient lemmas -/

lemma corrCoef_comm (xs ys : List ℚ) : corrCoef xs ys = corrCoef ys xs := by
  unfold corrCoef
  rw [covSum_comm]
  by_cases h1 : varSum xs = 0 <;> by_cases h2 : varSum ys = 0 <;>
    simp [h1, h2, mul_comm]

lemma varSum_pos_of_ne (xs : List ℚ) (h : varSum xs ≠ 0) : 0 < varSum xs :=
  lt_of_le_of_ne (varSum_nonneg xs) (Ne.symm h)

lemma corrCoef_self (xs : List ℚ) (h : varSum xs ≠ 0) :
    corrCoef xs xs = some 1 := by
  have hv : (0 : ℝ) < ((varSum xs : ℚ) : ℝ) := by
    exact_mod_cast varSum_pos_of_ne xs h
  unfold corrCoef
  rw [if_neg (by tauto)]
  have hcov : covSum xs xs = varSum xs := rfl
  rw [hcov, Real.mul_self_sqrt hv.le, div_self hv.ne.symm]

lemma corrCoef_mem_Icc (xs ys : List ℚ) (r : ℝ) (h : corrCoef xs ys = some r) :
    -1 ≤ r ∧ r ≤ 1 := by
  unfold corrCoef at h
  by_cases hz : varSum xs = 0 ∨ varSum ys = 0
  · rw [if_pos hz] at h
    exact absurd h (by simp)
  rw [if_neg hz] at h
  push_neg at hz
  have hx : (0 : ℝ) < ((varSum xs : ℚ) : ℝ) := by
    exact_mod_cast varSum_pos_of_ne xs hz.1
  have hy : (0 : ℝ) < ((varSum ys : ℚ) : ℝ) := by
    exact_mod_cast varSum_pos_of_ne ys hz.2
  have hd : (0 : ℝ) < Real.sqrt ((varSum xs : ℚ) : ℝ) * Real.sqrt ((varSum ys : ℚ) : ℝ) :=
    mul_pos (Real.sqrt_pos.mpr hx) (Real.sqrt_pos.mpr hy)
  have hcs : ((covSum xs ys : ℚ) : ℝ) ^ 2 ≤
      ((varSum xs : ℚ) : ℝ) * ((varSum ys : ℚ) : ℝ) := by
    exact_mod_cast covSum_sq_le xs ys
  have habs : |((covSum xs ys : ℚ) : ℝ)| ≤
      Real.sqrt ((varSum xs : ℚ) : ℝ) * Real.sqrt ((varSum ys : ℚ) : ℝ) := by
    calc |((covSum xs ys : ℚ) : ℝ)|
        = Real.sqrt (((covSum xs ys : ℚ) : ℝ) ^ 2) := (Real.sqrt_sq_eq_abs _).symm
      _ ≤ Real.sqrt (((varSum xs : ℚ) : ℝ) * ((varSum ys : ℚ) : ℝ)) :=
          Real.sqrt_le_sqrt hcs
      _ = Real.sqrt ((varSum xs : ℚ) : ℝ) * Real.sqrt ((varSum ys : ℚ) : ℝ) :=
          Real.sqrt_mul hx.le _
  have hr : r = ((covSum xs ys : ℚ) : ℝ) /
      (Real.sqrt ((varSum xs : ℚ) : ℝ) * Real.sqrt ((varSum ys : ℚ) : ℝ)) :=
    (Option.some_injective _ h).symm
  have hb : |r| ≤ 1 := by
    rw [hr, abs_div, abs_of_pos hd]
    exact (div_le_one hd).mpr habs
  exact abs_le.mp hb

lemma corrCoef_smul (xs : List ℚ) (c : ℚ) (hc : c ≠ 0) (hv : varSum xs ≠ 0) :
    corrCoef xs (xs.map (fun x => c * x)) =
      some (if 0 < c then (1 : ℝ) else -1) := by
  have hvpos := varSum_pos_of_ne xs hv
  have hv2 : varSum (xs.map (fun x => c * x)) = c ^ 2 * varSum xs :=
    varSum_map_mul xs c
  have hv2ne : varSum (xs.map (fun x => c * x)) ≠ 0 := by
    rw [hv2]
    exact mul_ne_zero (pow_ne_zero 2 hc) hv
  unfold corrCoef
  rw [if_neg (by tauto), covSum_map_mul, hv2]
  have hvR : (0 : ℝ) < ((varSum xs : ℚ) : ℝ) := by exact_mod_cast hvpos
  have hsq : Real.sqrt (((c ^ 2 * varSum xs : ℚ) : ℝ)) =
      |(c : ℝ)| * Real.sqrt ((varSum xs : ℚ) : ℝ) := by
    push_cast
    rw [Real.sqrt_mul (sq_nonneg ((c : ℚ) : ℝ)), Real.sqrt_sq_eq_abs]
  rw [hsq]
  have hden : Real.sqrt ((varSum xs : ℚ) : ℝ) *
      (|(c : ℝ)| * Real.sqrt ((varSum xs : ℚ) : ℝ)) =
      |(c : ℝ)| * ((varSum xs : ℚ) : ℝ) := by
    rw [mul_left_comm, Real.mul_self_sqrt hvR.le]
  rw [hden]
  congr 1
  push_cast
  rcases hc.lt_or_lt with hneg | hpos
  · have hcR : ((c : ℚ) : ℝ) < 0 := by exact_mod_cast hneg
    rw [if_neg (by exact_mod_cast not_lt.mpr hneg.le), abs_of_neg hcR,
      div_eq_iff (ne_of_gt (mul_pos (neg_pos.mpr hcR) hvR))]
    ring
  · have hcR : (0 : ℝ) < ((c : ℚ) : ℝ) := by exact_mod_cast hpos
    rw [if_pos hpos, abs_of_pos hcR,
      div_eq_iff (ne_of_gt (mul_pos hcR hvR))]
    ring

/-! ### Matrix-structure lemmas -/

lemma getD_inb {α : Type} (l : List α) (i : ℕ) (d : α) (h : i < l.length) :
    l.getD i d = l[i] := by
  rw [List.getD_eq_getElem?_getD, List.getElem?_eq_getElem h]
  rfl

lemma getD_oob {α : Type} (l : List α) (i : ℕ) (d : α) (h : l.length ≤ i) :
    l.getD i d = d := by
  rw [List.getD_eq_getElem?_getD, List.getElem?_eq_none h]
  rfl

lemma dfCorr_row (df : List (String × List ℚ)) (i : ℕ) (hi : i < df.length) :
    (dfCorr df).entries.getD i [] =
      df.map (fun cj => corrCoef df[i].2 cj.2) := by
  show (df.map (fun ci => df.map (fun cj => corrCoef ci.2 cj.2))).getD i [] = _
  rw [getD_inb _ _ _ (by simpa using hi)]
  simp only [List.getElem_map]

lemma dfCorr_row_oob (df : List (String × List ℚ)) (i : ℕ)
    (hi : df.length ≤ i) :
    (dfCorr df).entries.getD i [] = [] := by
  show (df.map (fun ci => df.map (fun cj => corrCoef ci.2 cj.2))).getD i [] = _
  rw [getD_oob _ _ _ (by simpa using hi)]

lemma dfCorr_entry (df : List (String × List ℚ)) (i j : ℕ)
    (hi : i < df.length) (hj : j < df.length) :
    (dfCorr df).entry i j = corrCoef df[i].2 df[j].2 := by
  unfold CorrTable.entry
  rw [dfCorr_row df i hi, getD_inb _ _ _ (by simpa using hj)]
  simp only [List.getElem_map]

lemma dfCorr_entry_oob (df : List (String × List ℚ)) (i j : ℕ)
    (h : df.length ≤ i ∨ df.length ≤ j) :
    (dfCorr df).entry i j = none := by
  unfold CorrTable.entry
  by_cases hi : i < df.length
  · have hj : df.length ≤ j := by
      rcases h with h | h
      · exact absurd hi (not_lt.mpr h)
      · exact h
    rw [dfCorr_row df i hi, getD_oob _ _ _ (by simpa using hj)]
  · rw [dfCorr_row_oob df i (not_lt.mp hi)]
    rfl

lemma dfCorr_entry_symm (df : List (String × List ℚ)) (i j : ℕ) :
    (dfCorr df).entry i j = (dfCorr df).entry j i := by
  by_cases hi : i < df.length
  · by_cases hj : j < df.length
    · rw [dfCorr_entry df i j hi hj, dfCorr_entry df j i hj hi, corrCoef_comm]
    · rw [dfCorr_entry_oob df i j (Or.inr (not_lt.mp hj)),
        dfCorr_entry_oob df j i (Or.inl (not_lt.mp hj))]
  · rw [dfCorr_entry_oob df i j (Or.inl (not_lt.mp hi)),
      dfCorr_entry_oob df j i (Or.inr (not_lt.mp hi))]

/-! ### DataFrame-assembly lemmas -/

lemma mem_dictInsert {d : List (String × List ℚ)} {k : String} {v : List ℚ}
    {p : String × List ℚ} (hp : p ∈ dictInsert d k v) :
    p = (k, v) ∨ (p ∈ d ∧ p.1 ≠ k) := by
  unfold dictInsert at hp
  split at hp
  · rcases List.mem_map.mp hp with ⟨q, hq, hqe⟩
    by_cases hq1 : q.1 = k
    · rw [if_pos hq1] at hqe
      exact Or.inl hqe.symm
    · rw [if_neg hq1] at hqe
      exact Or.inr ⟨hqe ▸ hq, hqe ▸ hq1⟩
  · rcases List.mem_append.mp hp with h | h
    · refine Or.inr ⟨h, fun he => ?_⟩
      rename_i hany
      rw [Bool.not_eq_true] at hany
      have := List.any_eq_true.mpr (⟨p, h, by simpa using he⟩ :
        ∃ q ∈ d, (q.1 == k) = true)
      rw [hany] at this
      cases this
    · exact Or.inl (by simpa using h)

lemma dictInsert_of_fresh {d : List (String × List ℚ)} {k : String}
    {v : List ℚ} (h : ∀ q ∈ d, q.1 ≠ k) :
    dictInsert d k v = d ++ [(k, v)] := by
  unfold dictInsert
  rw [if_neg fun hc => by
    rcases List.any_eq_true.mp hc with ⟨q, hq, hb⟩
    exact h q hq (by simpa using hb)]

lemma mem_buildData_aux (fetch : String → Option (List ℚ)) :
    ∀ (ts : List String) (d : List (String × List ℚ)),
    (∀ q ∈ d, fetch q.1 = some q.2) →
    ∀ p ∈ ts.foldl (fun d t => match fetch t with
      | some s => dictInsert d t s
      | none => d) d, fetch p.1 = some p.2
  | [], d, hd => by simpa using hd
  | t :: ts, d, hd => by
    simp only [List.foldl_cons]
    cases hft : fetch t with
    | none => exact mem_buildData_aux fetch ts d hd
    | some s =>
      apply mem_buildData_aux fetch ts
      intro q hq
      rcases mem_dictInsert hq with rfl | ⟨hq, _⟩
      · simpa using hft
      · exact hd q hq

lemma mem_buildData {fetch : String → Option (List ℚ)} {ts : List String}
    {p : String × List ℚ} (hp : p ∈ buildData fetch ts) :
    fetch p.1 = some p.2 :=
  mem_buildData_aux fetch ts [] (by simp) p hp

lemma keys_foldl_aux (fetch : String → Option (List ℚ)) :
    ∀ (ts : List String) (d : List (String × List ℚ))
      (p : String × List ℚ),
    p ∈ ts.foldl (fun d t => match fetch t with
      | some s => dictInsert d t s
      | none => d) d →
    p.1 ∈ d.map (fun q => q.1) ∨ p.1 ∈ ts
  | [], d, p => fun hp => Or.inl (List.mem_map.mpr ⟨p, by simpa using hp, rfl⟩)
  | t :: ts, d, p => by
    intro hp
    simp only [List.foldl_cons] at hp
    cases hft : fetch t with
    | none =>
      rw [hft] at hp
      rcases keys_foldl_aux fetch ts d p hp with h | h
      · exact Or.inl h
      · exact Or.inr (List.mem_cons_of_mem t h)
    | some s =>
      rw [hft] at hp
      rcases keys_foldl_aux fetch ts (dictInsert d t s) p hp with h | h
      · rcases List.mem_map.mp h with ⟨q, hq, hqe⟩
        rcases mem_dictInsert hq with rfl | ⟨hq, _⟩
        · refine Or.inr ?_
          rw [← hqe]
          exact List.mem_cons_self t ts
        · exact Or.inl (hqe ▸ List.mem_map.mpr ⟨q, hq, rfl⟩)
      · exact Or.inr (List.mem_cons_of_mem t h)

lemma mem_buildData_keys {fetch : String → Option (List ℚ)} {ts : List String}
    {p : String × List ℚ} (hp : p ∈ buildData fetch ts) : p.1 ∈ ts := by
  rcases keys_foldl_aux fetch ts [] p hp with h | h
  · simp at h
  · exact h

lemma buildData_nodup_aux (fetch : String → Option (List ℚ)) :
    ∀ (ts : List String) (d : List (String × List ℚ)),
    ts.Nodup → (∀ q ∈ d, q.1 ∉ ts) →
    ts.foldl (fun d t => match fetch t with
      | some s => dictInsert d t s
      | none => d) d =
      d ++ ts.filterMap (fun t => (fetch t).map (fun s => (t, s)))
  | [], d, _, _ => by simp
  | t :: ts, d, hnd, hd => by
    rw [List.nodup_cons] at hnd
    simp only [List.foldl_cons]
    cases hft : fetch t with
    | none =>
      rw [buildData_nodup_aux fetch ts d hnd.2
        (fun q hq => fun hmem => hd q hq (List.mem_cons_of_mem t hmem))]
      simp [List.filterMap_cons, hft]
    | some s =>
      have hstep : (match some s with
        | some s => dictInsert d t s
        | none => d) = dictInsert d t s := rfl
      rw [hstep, dictInsert_of_fresh
        (fun q hq => fun he => hd q hq (he ▸ List.mem_cons_self t ts))]
      rw [buildData_nodup_aux fetch ts (d ++ [(t, s)]) hnd.2 ?_]
      · simp [List.filterMap_cons, hft]
      · intro q hq
        rcases List.mem_append.mp hq with h | h
        · exact fun hmem => hd q h (List.mem_cons_of_mem t hmem)
        · have : q = (t, s) := by simpa using h
          rw [this]
          exact hnd.1

lemma buildData_nodup {fetch : String → Option (List ℚ)} {ts : List String}
    (h : ts.Nodup) :
    buildData fetch ts =
      ts.filterMap (fun t => (fetch t).map (fun s => (t, s))) := by
  have := buildData_nodup_aux fetch ts [] h (by simp)
  simpa using this

lemma keys_filterMap (fetch : String → Option (List ℚ)) :
    ∀ ts : List String,
    (ts.filterMap (fun t => (fetch t).map (fun s => (t, s)))).map
        (fun p => p.1) =
      ts.filter (fun t => (fetch t).isSome)
  | [] => rfl
  | t :: ts => by
    cases hft : fetch t <;>
      simp [List.filterMap_cons, List.filter_cons, hft, keys_filterMap fetch ts]

lemma correlation_matrix_rows (fetch : String → Option (List ℚ))
    (ts : List String) :
    (correlation_matrix fetch ts).rows =
      (buildData fetch ts).map (fun p => p.1) := by
  unfold correlation_matrix dfCorr
  rw [List.map_map]
  rfl

lemma correlation_matrix_entry (fetch : String → Option (List ℚ))
    (ts : List String) (i j : ℕ) (hi : i < (buildData fetch ts).length)
    (hj : j < (buildData fetch ts).length) :
    (correlation_matrix fetch ts).entry i j =
      corrCoef (pct_change (buildData fetch ts)[i].2)
        (pct_change (buildData fetch ts)[j].2) := by
  unfold correlation_matrix
  rw [dfCorr_entry _ i j (by simpa using hi) (by simpa using hj)]
  simp only [List.getElem_map]

lemma correlation_matrix_entry_oob (fetch : String → Option (List ℚ))
    (ts : List String) (i j : ℕ)
    (h : (buildData fetch ts).length ≤ i ∨ (buildData fetch ts).length ≤ j) :
    (correlation_matrix fetch ts).entry i j = none := by
  unfold correlation_matrix
  apply dfCorr_entry_oob
  simpa using h

/-- A correlation table satisfies the spec sentence "all entries lie within
[-1.0, 1.0]" iff every entry of its grid is an actual number (not NaN) in
that interval. -/
def entriesWithinUnit (M : CorrTable) : Prop :=
  ∀ row ∈ M.entries, ∀ e ∈ row, ∃ r : ℝ, e = some r ∧ -1 ≤ r ∧ r ≤ 1

/-! ### Claim theorems -/

/-- C1 (code bug): on a failing fetch the routine does catch the exception,
print the diagnostic, and omit the ticker from the computed matrix, but the
claim that no exception escapes the routine is violated: evaluated at the
failing input (a fetch that always raises, ticker list `["SPY"]`), the
routine itself raises `NameError: name 'sns' is not defined`, because the
notebook calls `sns.heatmap` without ever importing seaborn. -/
theorem C1_fetch_failure_namerror_escapes :
    (analyze_market_correlations (fun _ => none) ["SPY"]).1 =
        ["Failed to get data for SPY"] ∧
      (correlation_matrix (fun _ => none) ["SPY"]).rows = [] ∧
      (analyze_market_correlations (fun _ => none) ["SPY"]).2 =
        Except.error (PyError.nameError ("sns")) := by
  refine ⟨by decide, ?_, rfl⟩
  rw [correlation_matrix_rows]
  rfl

/-- C2 (code bug): on the empty ticker list the empty correlation matrix is
computed (no rows, no entries), but instead of returning it the routine
raises `NameError: name 'sns' is not defined` at the `sns.heatmap` call, so
the claim that it returns without raising is violated. -/
theorem C2_empty_tickers_namerror :
    ∀ fetch : String → Option (List ℚ),
    (correlation_matrix fetch []).rows = [] ∧
      (correlation_matrix fetch []).entries = [] ∧
      analyze_market_correlations fetch [] =
        ([], Except.error (PyError.nameError ("sns"))) :=
  fun _ => ⟨rfl, rfl, rfl⟩

/-- C3 (confirmed): for every fetch outcome and ticker list, the computed
correlation matrix is square — its row labels equal its column labels and
its entry grid is an n × n square for n the number of labels — and
symmetric: entry (i, j) equals entry (j, i) for all indices. -/
theorem C3_square_symmetric (fetch : String → Option (List ℚ))
    (tickers : List String) :
    (correlation_matrix fetch tickers).rows =
        (correlation_matrix fetch tickers).cols ∧
      (correlation_matrix fetch tickers).entries.length =
        (correlation_matrix fetch tickers).rows.length ∧
      (∀ row ∈ (correlation_matrix fetch tickers).entries,
        row.length = (correlation_matrix fetch tickers).rows.length) ∧
      ∀ i j : ℕ, (correlation_matrix fetch tickers).entry i j =
        (correlation_matrix fetch tickers).entry j i := by
  refine ⟨rfl, by simp [correlation_matrix, dfCorr], ?_, ?_⟩
  · intro row hrow
    unfold correlation_matrix dfCorr at hrow ⊢
    rcases List.mem_map.mp hrow with ⟨ci, _, rfl⟩
    simp
  · intro i j
    show (dfCorr ((buildData fetch tickers).map
        (fun p => (p.1, pct_change p.2)))).entry i j =
      (dfCorr ((buildData fetch tickers).map
        (fun p => (p.1, pct_change p.2)))).entry j i
    exact dfCorr_entry_symm _ i j

/-- C4 (confirmed): for every ticker present in the computed matrix whose
fetched price series has returns of nonzero variance, the diagonal entry at
that ticker's index is exactly 1. -/
theorem C4_diagonal_one (fetch : String → Option (List ℚ))
    (tickers : List String) (i : ℕ)
    (hi : i < (buildData fetch tickers).length)
    (hv : varSum (pct_change (buildData fetch tickers)[i].2) ≠ 0) :
    (correlation_matrix fetch tickers).entry i i = some 1 := by
  rw [correlation_matrix_entry fetch tickers i i hi hi]
  exact corrCoef_self _ hv

/-- C4 witness: with one ticker whose prices are 1, 2, 3 (returns 1, 1/2,
nonzero variance), the diagonal entry is 1. -/
theorem C4_diagonal_one_witness :
    (correlation_matrix (fun _ => some [1, 2, 3]) ["A"]).entry 0 0 =
      some 1 :=
  C4_diagonal_one (fun _ => some [1, 2, 3]) ["A"] 0 (by decide)
    (by norm_num [varSum, covSum, devs, pct_change, mean, buildData,
      dictInsert])

/-- C5 counterexample: the claim fails for a constant price series.  With
one ticker whose fetched prices are 1, 1, 1, the returns are 0, 0, their
variance is zero, and pandas produces NaN (modelled `none`) for the sole
entry of the matrix — which therefore does not lie within [-1, 1]. -/
theorem C5_counterexample :
    ¬ entriesWithinUnit (correlation_matrix (fun _ => some [1, 1, 1]) ["A"]) := by
  intro h
  have hnone : corrCoef (pct_change [1, 1, 1]) (pct_change [1, 1, 1]) = none := by
    unfold corrCoef
    rw [if_pos (Or.inl (by norm_num [varSum, covSum, devs, pct_change, mean]))]
  have hent : (correlation_matrix (fun _ => some [1, 1, 1]) ["A"]).entries =
      [[corrCoef (pct_change [1, 1, 1]) (pct_change [1, 1, 1])]] := rfl
  rcases h _ (by rw [hent]; exact List.mem_singleton.mpr rfl) _
      (List.mem_singleton.mpr rfl) with ⟨r, hr, _⟩
  rw [hnone] at hr
  exact Option.noConfusion hr

/-- C5 amended (proved): every entry of the computed correlation matrix that
is an actual number — equivalently, every entry between two tickers whose
return series both have nonzero variance; the others are NaN — lies within
[-1, 1].  This holds for every fetch outcome and ticker list. -/
theorem C5_defined_entries_in_unit (fetch : String → Option (List ℚ))
    (tickers : List String) (i j : ℕ) (r : ℝ)
    (h : (correlation_matrix fetch tickers).entry i j = some r) :
    -1 ≤ r ∧ r ≤ 1 := by
  by_cases hi : i < (buildData fetch tickers).length
  · by_cases hj : j < (buildData fetch tickers).length
    · rw [correlation_matrix_entry fetch tickers i j hi hj] at h
      exact corrCoef_mem_Icc _ _ r h
    · rw [correlation_matrix_entry_oob fetch tickers i j
        (Or.inr (not_lt.mp hj))] at h
      exact Option.noConfusion h
  · rw [correlation_matrix_entry_oob fetch tickers i j
      (Or.inl (not_lt.mp hi))] at h
    exact Option.noConfusion h

/-- C5 witness: the diagonal entry of the one-ticker matrix for prices
1, 2, 3 is the defined value 1, and the amended theorem applies to it. -/
theorem C5_witness :
    (correlation_matrix (fun _ => some [1, 2, 3]) ["B"]).entry 0 0 =
        some 1 ∧
      (-1 ≤ (1 : ℝ) ∧ (1 : ℝ) ≤ 1) := by
  have hentry : (correlation_matrix (fun _ => some [1, 2, 3]) ["B"]).entry
      0 0 = some 1 := by
    rw [correlation_matrix_entry _ _ 0 0 (by decide) (by decide)]
    exact corrCoef_self _ (by norm_num [varSum, covSum, devs, pct_change,
      mean, buildData, dictInsert])
  exact ⟨hentry, C5_defined_entries_in_unit _ _ 0 0 1 hentry⟩

/-- C6 (confirmed): for a deterministic two-ticker price history, if ticker
B's return series is identical to ticker A's (and has nonzero variance),
the off-diagonal entry of the computed matrix is 1; if B's return series is
a negative multiple of A's (perfectly inverse returns), the entry is -1. -/
theorem C6_identical_inverse (pA pB : List ℚ) (c : ℚ) :
    (pct_change pB = pct_change pA → varSum (pct_change pA) ≠ 0 →
      (correlation_matrix
        (fun t => if t = "A" then some pA else
          if t = "B" then some pB else none) ["A", "B"]).entry 0 1 =
        some 1) ∧
    (0 < c → pct_change pB = (pct_change pA).map (fun r => -c * r) →
      varSum (pct_change pA) ≠ 0 →
      (correlation_matrix
        (fun t => if t = "A" then some pA else
          if t = "B" then some pB else none) ["A", "B"]).entry 0 1 =
        some (-1)) := by
  have hbd : buildData (fun t => if t = "A" then some pA else
      if t = "B" then some pB else none) ["A", "B"] =
      [("A", pA), ("B", pB)] := rfl
  constructor
  · intro hid hv
    rw [correlation_matrix_entry _ _ 0 1 (by simp [hbd]) (by simp [hbd])]
    simp only [hbd, List.getElem_cons_zero, List.getElem_cons_succ]
    rw [hid]
    exact corrCoef_self _ hv
  · intro hc hinv hv
    rw [correlation_matrix_entry _ _ 0 1 (by simp [hbd]) (by simp [hbd])]
    simp only [hbd, List.getElem_cons_zero, List.getElem_cons_succ]
    rw [hinv, corrCoef_smul _ _ (neg_ne_zero.mpr hc.ne') hv,
      if_neg (not_lt.mpr (neg_nonpos.mpr hc.le))]

/-- C6 witness: prices 1, 2, 3 for both tickers give entry 1; prices
1, 2, 3 against 1, 1/2, 3/8 (returns -1/2, -1/4, the -1/2 multiple of
1, 1/2) give entry -1. -/
theorem C6_witness :
    (correlation_matrix (fun t => if t = "A" then some [1, 2, 3] else
        if t = "B" then some [1, 2, 3] else none) ["A", "B"]).entry 0 1 =
      some 1 ∧
    (correlation_matrix (fun t => if t = "A" then some [1, 2, 3] else
        if t = "B" then some [1, 1/2, 3/8] else none) ["A", "B"]).entry 0 1 =
      some (-1) :=
  ⟨(C6_identical_inverse [1, 2, 3] [1, 2, 3] 1).1 rfl
      (by norm_num [varSum, covSum, devs, pct_change, mean]),
   (C6_identical_inverse [1, 2, 3] [1, 1/2, 3/8] (1/2)).2 (by norm_num)
      (by norm_num [pct_change])
      (by norm_num [varSum, covSum, devs, pct_change, mean])⟩

/-! ### Reference (spec-side) Pearson definition, for the refinement
claim C7 -/

/-- Number of observations of a return series, as a rational. -/
def obsCount (u : List ℚ) : ℚ := u.length

/-- Reference Pearson coefficient, written from the spec's words rather
than from pandas: the correlation of two aligned return series is their
covariance divided by the product of their standard deviations, with
population normalisation by the number of observations, and NaN when
there are no observations or either variance vanishes. -/
noncomputable def specPearson (u v : List ℚ) : Option ℝ :=
  if u.length = 0 ∨ varSum u / obsCount u = 0 ∨ varSum v / obsCount v = 0
  then none
  else some (((covSum u v / obsCount u : ℚ) : ℝ) /
    (Real.sqrt ((varSum u / obsCount u : ℚ) : ℝ) *
      Real.sqrt ((varSum v / obsCount v : ℚ) : ℝ)))

/-- Reference correlation table of an ordered column assignment, using the
spec-side Pearson coefficient. -/
noncomputable def specDfCorr (df : List (String × List ℚ)) : CorrTable :=
  { rows := df.map (fun p => p.1)
    cols := df.map (fun p => p.1)
    entries := df.map (fun ci => df.map (fun cj => specPearson ci.2 cj.2)) }

/-- Reference matrix per the spec: percent-change each fetched column,
then pairwise Pearson correlation. -/
noncomputable def spec_correlation_matrix (fetch : String → Option (List ℚ))
    (tickers : List String) : CorrTable :=
  specDfCorr ((buildData fetch tickers).map (fun p => (p.1, pct_change p.2)))

/-- Correlation of the raw prices, with no percent-change step — the
computation the routine does NOT perform. -/
noncomputable def raw_correlation_matrix (fetch : String → Option (List ℚ))
    (tickers : List String) : CorrTable :=
  dfCorr (buildData fetch tickers)

lemma length_pct_change (xs : List ℚ) :
    (pct_change xs).length = xs.length - 1 := by
  unfold pct_change
  rw [List.length_map, List.length_zip, List.length_tail]
  exact Nat.min_eq_right (Nat.sub_le _ _)

lemma corrCoef_eq_specPearson (u v : List ℚ) (h : u.length = v.length) :
    corrCoef u v = specPearson u v := by
  unfold corrCoef specPearson obsCount
  rcases Nat.eq_zero_or_pos u.length with h0 | hpos
  · have hu : u = [] := List.length_eq_zero.mp h0
    have hv : v = [] := List.length_eq_zero.mp (by rw [← h]; exact h0)
    rw [hu, hv]
    simp [varSum, covSum, devs]
  · have hn0 : (u.length : ℚ) ≠ 0 := Nat.cast_ne_zero.mpr hpos.ne'
    have hlen : (v.length : ℚ) = (u.length : ℚ) := by exact_mod_cast h.symm
    rw [hlen]
    have hcond : (u.length = 0 ∨ varSum u / (u.length : ℚ) = 0 ∨
        varSum v / (u.length : ℚ) = 0) ↔
        (varSum u = 0 ∨ varSum v = 0) := by
      constructor
      · rintro (h1 | h1 | h1)
        · exact absurd h1 hpos.ne'
        · rcases div_eq_zero_iff.mp h1 with h2 | h2
          · exact Or.inl h2
          · exact absurd h2 hn0
        · rcases div_eq_zero_iff.mp h1 with h2 | h2
          · exact Or.inr h2
          · exact absurd h2 hn0
      · rintro (h1 | h1)
        · exact Or.inr (Or.inl (by rw [h1, zero_div]))
        · exact Or.inr (Or.inr (by rw [h1, zero_div]))
    by_cases hz : varSum u = 0 ∨ varSum v = 0
    · rw [if_pos hz, if_pos (hcond.mpr hz)]
    · rw [if_neg hz, if_neg (fun hB => hz (hcond.mp hB))]
      push_neg at hz
      congr 1
      have hxR : (0 : ℝ) < ((varSum u : ℚ) : ℝ) := by
        exact_mod_cast varSum_pos_of_ne u hz.1
      have hyR : (0 : ℝ) < ((varSum v : ℚ) : ℝ) := by
        exact_mod_cast varSum_pos_of_ne v hz.2
      have hnR : (0 : ℝ) < ((u.length : ℕ) : ℝ) := by exact_mod_cast hpos
      push_cast
      rw [Real.sqrt_div hxR.le, Real.sqrt_div hyR.le, div_mul_div_comm,
        Real.mul_self_sqrt hnR.le, div_div_div_cancel_right₀ hnR.ne']

/-- C7 (confirmed): under the common-date-index alignment (all successfully
fetched series have the same length L), the computed matrix coincides with
the reference definition — percent-change of each column followed by
pairwise Pearson correlation — and it is not the correlation of the raw
prices: at a concrete two-ticker input the two disagree. -/
theorem C7_pearson_of_returns_not_raw (fetch : String → Option (List ℚ))
    (tickers : List String) (L : ℕ)
    (hL : ∀ p ∈ buildData fetch tickers, p.2.length = L) :
    correlation_matrix fetch tickers =
        spec_correlation_matrix fetch tickers ∧
      (correlation_matrix (fun t => if t = "A" then some [1, 2, 3] else
          if t = "B" then some [1, 2, 4] else none) ["A", "B"]).entry 0 1 ≠
        (raw_correlation_matrix (fun t => if t = "A" then some [1, 2, 3] else
          if t = "B" then some [1, 2, 4] else none) ["A", "B"]).entry 0 1 := by
  constructor
  · unfold correlation_matrix spec_correlation_matrix dfCorr specDfCorr
    refine CorrTable.ext ?_ ?_ ?_
    · rfl
    · rfl
    apply List.map_congr_left
    intro ci hci
    apply List.map_congr_left
    intro cj hcj
    rcases List.mem_map.mp hci with ⟨p, hp, rfl⟩
    rcases List.mem_map.mp hcj with ⟨q, hq, rfl⟩
    apply corrCoef_eq_specPearson
    rw [length_pct_change, length_pct_change, hL p hp, hL q hq]
  · have hbd : buildData (fun t => if t = "A" then some [1, 2, 3] else
        if t = "B" then some [1, 2, 4] else none) ["A", "B"] =
        [("A", [1, 2, 3]), ("B", [1, 2, 4])] := rfl
    rw [correlation_matrix_entry _ _ 0 1 (by simp [hbd]) (by simp [hbd])]
    unfold raw_correlation_matrix
    rw [dfCorr_entry _ 0 1 (by simp [hbd]) (by simp [hbd])]
    simp only [hbd, List.getElem_cons_zero, List.getElem_cons_succ]
    have h1 : corrCoef (pct_change [1, 2, 3]) (pct_change [1, 2, 4]) =
        none := by
      unfold corrCoef
      rw [if_pos (Or.inr (by norm_num [varSum, covSum, devs, pct_change,
        mean]))]
    have h2 : corrCoef [1, 2, 3] [1, 2, 4] ≠ none := by
      unfold corrCoef
      rw [if_neg (by norm_num [varSum, covSum, devs, mean])]
      simp
    rw [h1]
    exact fun he => h2 he.symm

/-- C7 witness: at a concrete two-ticker fetch whose series both have three
observations, the computed matrix equals the reference matrix. -/
theorem C7_witness :
    correlation_matrix (fun t => if t = "A" then some [1, 2, 3] else
        if t = "B" then some [1, 2, 4] else none) ["A", "B"] =
      spec_correlation_matrix (fun t => if t = "A" then some [1, 2, 3] else
        if t = "B" then some [1, 2, 4] else none) ["A", "B"] :=
  (C7_pearson_of_returns_not_raw _ _ 3 (by decide)).1

lemma length_dictInsert (d : List (String × List ℚ)) (k : String)
    (v : List ℚ) : (dictInsert d k v).length ≤ d.length + 1 := by
  unfold dictInsert
  split
  · rw [List.length_map]
    exact Nat.le_succ _
  · rw [List.length_append]
    rfl

lemma buildData_length_aux (fetch : String → Option (List ℚ)) :
    ∀ (ts : List String) (d : List (String × List ℚ)),
    (ts.foldl (fun d t => match fetch t with
      | some s => dictInsert d t s
      | none => d) d).length ≤ d.length + ts.length
  | [], d => Nat.le.refl
  | t :: ts, d => by
    simp only [List.foldl_cons, List.length_cons]
    cases hft : fetch t with
    | none =>
      calc (ts.foldl _ d).length ≤ d.length + ts.length :=
            buildData_length_aux fetch ts d
        _ ≤ d.length + (ts.length + 1) := by omega
    | some s =>
      calc (ts.foldl _ (dictInsert d t s)).length
          ≤ (dictInsert d t s).length + ts.length :=
            buildData_length_aux fetch ts (dictInsert d t s)
        _ ≤ d.length + 1 + ts.length := by
            have := length_dictInsert d t s
            omega
        _ = d.length + (ts.length + 1) := by omega

lemma buildData_length (fetch : String → Option (List ℚ))
    (ts : List String) : (buildData fetch ts).length ≤ ts.length := by
  have := buildData_length_aux fetch ts []
  simpa using this

lemma fetchFailures_congr (f f' : String → Option (List ℚ))
    (ts : List String) (h : ∀ t ∈ ts, f t = f' t) :
    fetchFailures f ts = fetchFailures f' ts := by
  unfold fetchFailures
  apply List.filterMap_congr
  intro t ht
  rw [h t ht]

/-- C8 (confirmed): the instrument universe is defined once at load time
and no subsequent step mutates it — after the driver (including the
correlation routine) runs, the mapping still has exactly the original five
categories with their original ticker lists, for every fetch outcome.  (The
notebook's only access to `research_universe` is the read-only `.values()`
iteration; `all_tickers` is a fresh list built by `extend`.) -/
theorem C8_universe_never_mutated (fetch : String → Option (List ℚ)) :
    (runDriver fetch).1 = research_universe ∧
      (runDriver fetch).1.map (fun c => c.1) =
        ["indices", "sectors", "commodities", "bonds", "volatility"] ∧
      (runDriver fetch).1.map (fun c => c.2) =
        [["SPY", "QQQ", "IWM", "DIA"],
         ["XLF", "XLK", "XLE", "XLV", "XLI"],
         ["GLD", "SLV", "USO", "UNG"],
         ["TLT", "IEF", "SHY", "HYG"],
         ["VIX", "UVXY", "SVXY"]] :=
  ⟨rfl, rfl, rfl⟩

/-- C9 counterexample: the claim's parenthetical identification of the
never-analyzed tickers as "the later bonds and all volatility tickers" is
refuted — "SLV" sits after position 10 of the flattened universe, yet it
belongs to the commodities category, not to bonds or volatility. -/
theorem C9_counterexample :
    "SLV" ∈ all_tickers.drop 10 ∧
      ∀ cat ∈ research_universe,
        (cat.1 = "bonds" ∨ cat.1 = "volatility") → "SLV" ∉ cat.2 := by
  decide

/-- C9 amended (proved): the driver passes exactly the first ten tickers of
the flattened universe (SPY through GLD) to the routine, so the computed
matrix has at most 10 rows; the tickers from position 10 on — the last
three commodities, all bonds, and all volatility tickers — never appear in
the matrix and are never fetched: the driver's outcome is unchanged under
any modification of the fetch oracle outside the first ten tickers. -/
theorem C9_first_ten_only (fetch fetch' : String → Option (List ℚ))
    (hagree : ∀ t ∈ all_tickers.take 10, fetch t = fetch' t) :
    all_tickers.take 10 =
        ["SPY", "QQQ", "IWM", "DIA", "XLF", "XLK", "XLE", "XLV", "XLI",
         "GLD"] ∧
      all_tickers.drop 10 =
        ["SLV", "USO", "UNG", "TLT", "IEF", "SHY", "HYG", "VIX", "UVXY",
         "SVXY"] ∧
      (correlation_matrix fetch (all_tickers.take 10)).rows.length ≤ 10 ∧
      (∀ t ∈ all_tickers.drop 10,
        t ∉ (correlation_matrix fetch (all_tickers.take 10)).rows) ∧
      runDriver fetch = runDriver fetch' := by
  refine ⟨rfl, rfl, ?_, ?_, ?_⟩
  · rw [correlation_matrix_rows, List.length_map]
    exact le_trans (buildData_length fetch _) (by decide)
  · intro t ht hmem
    rw [correlation_matrix_rows] at hmem
    rcases List.mem_map.mp hmem with ⟨p, hp, rfl⟩
    have hin : p.1 ∈ all_tickers.take 10 := mem_buildData_keys hp
    have hdisj : ∀ t ∈ all_tickers.drop 10, t ∉ all_tickers.take 10 := by
      decide
    exact hdisj p.1 ht hin
  · have hff : fetchFailures fetch (all_tickers.take 10) =
        fetchFailures fetch' (all_tickers.take 10) :=
      fetchFailures_congr fetch fetch' _ hagree
    unfold runDriver analyze_market_correlations
    rw [hff]

/-- C9 witness: the amended theorem applied with both oracles equal to the
always-failing fetch. -/
theorem C9_witness :
    all_tickers.take 10 =
        ["SPY", "QQQ", "IWM", "DIA", "XLF", "XLK", "XLE", "XLV", "XLI",
         "GLD"] ∧
      all_tickers.drop 10 =
        ["SLV", "USO", "UNG", "TLT", "IEF", "SHY", "HYG", "VIX", "UVXY",
         "SVXY"] ∧
      (correlation_matrix (fun _ => none)
        (all_tickers.take 10)).rows.length ≤ 10 ∧
      (∀ t ∈ all_tickers.drop 10,
        t ∉ (correlation_matrix (fun _ => none)
          (all_tickers.take 10)).rows) ∧
      runDriver (fun _ => none) = runDriver (fun _ => none) :=
  C9_first_ten_only (fun _ => none) (fun _ => none) (fun _ _ => rfl)

/-- C10 (confirmed): for a duplicate-free input ticker list, the row and
column labels of the computed matrix are exactly the successfully fetched
tickers, in the input list's relative order. -/
theorem C10_labels_input_order (fetch : String → Option (List ℚ))
    (tickers : List String) (h : tickers.Nodup) :
    (correlation_matrix fetch tickers).rows =
        tickers.filter (fun t => (fetch t).isSome) ∧
      (correlation_matrix fetch tickers).cols =
        tickers.filter (fun t => (fetch t).isSome) := by
  have hrows : (correlation_matrix fetch tickers).rows =
      tickers.filter (fun t => (fetch t).isSome) := by
    rw [correlation_matrix_rows, buildData_nodup h, keys_filterMap]
  exact ⟨hrows, hrows⟩

/-- C10 witness: with tickers A, B where only A's fetch succeeds, the
labels are exactly ["A"]. -/
theorem C10_witness :
    (correlation_matrix (fun t => if t = "A" then some [1, 2, 3] else none)
      ["A", "B"]).rows = ["A"] :=
  ((C10_labels_input_order (fun t => if t = "A" then some [1, 2, 3]
    else none) ["A", "B"] (by decide)).1).trans (by decide)

end MarketResearch
